import Mathlib

/-!
Verification of the redirect-detection core of the honda-price-update
scraper service (src/python-scraper/server.py).

Strings are modelled as `List Char`.  Python's `urllib.parse.urlparse` is
modelled by `urlparse` below, restricted to the scheme/netloc/path/query/
fragment splitting that the program relies on: parameter (`;`) splitting,
control-character stripping and the extra bracketed-host validation of
newer CPython versions are not modelled, while the `ValueError` raised on
an authority with unbalanced square brackets is modelled as `Except.error`.
Character predicates (`isdigit`, `\d`, `[A-Z]` with `re.IGNORECASE`,
`str.lower`) are modelled over ASCII.
-/

deriving instance DecidableEq for Except

namespace HondaScraper

abbrev Str := List Char

/-- Coerce a Lean string literal to the `List Char` representation. -/
def strL (s : String) : Str := s.data

/-- Python `str.lower()` (ASCII model). -/
def pyLowerL (l : Str) : Str := l.map Char.toLower

/-- Python `c in s` for a single character (substring membership test). -/
def hasCh (c : Char) (l : Str) : Bool := l.any (fun x => x == c)

/-- The part of `l` before the first occurrence of `c` (all of `l` if absent);
models `url[:url.find(c)]` / the first component of `str.split(c, 1)`. -/
def beforeCh (c : Char) (l : Str) : Str := l.takeWhile (fun x => x != c)

/-- The part of `l` after the first occurrence of `c`;
models the second component of `str.split(c, 1)`. -/
def afterCh (c : Char) (l : Str) : Str := (l.dropWhile (fun x => x != c)).drop 1

/-- Python `str.rstrip(c)` for a single strip character: removes every
trailing occurrence of `c`. -/
def pyRstrip (c : Char) (l : Str) : Str :=
  (l.reverse.dropWhile (fun x => x == c)).reverse

/-- Python substring containment `pat in l`. -/
def containsSub (pat : Str) : Str → Bool
  | [] => pat.isEmpty
  | c :: rest => pat.isPrefixOf (c :: rest) || containsSub pat rest

/-- Python `netloc.replace('www.', '')` (server.py lines 36 and 109):
removes every non-overlapping occurrence of `"www."`, scanning left to
right, exactly as `str.replace` with an empty replacement does. -/
def eraseWww : Str → Str
  | 'w' :: 'w' :: 'w' :: '.' :: rest => eraseWww rest
  | c :: rest => c :: eraseWww rest
  | [] => []

/-- Characters allowed in a URL scheme by `urllib.parse` (`scheme_chars`). -/
def schemeChar (c : Char) : Bool :=
  c.isAlpha || c.isDigit || c == '+' || c == '-' || c == '.'

/-- CPython `urlsplit` accepts `url[:i]` as a scheme iff it is nonempty,
starts with an ASCII letter and consists of scheme characters. -/
def validScheme : Str → Bool
  | [] => false
  | c :: rest => c.isAlpha && (c :: rest).all schemeChar

/-- The scheme-splitting step of `urlsplit`: if the part before the first
`':'` is a valid scheme it is split off (lower-cased); otherwise the url
is left whole with an empty scheme. -/
def splitScheme (url : Str) : Str × Str :=
  if hasCh ':' url && validScheme (beforeCh ':' url) then
    (pyLowerL (beforeCh ':' url), afterCh ':' url)
  else ([], url)

/-- A character terminating the netloc in `_splitnetloc`. -/
def netlocDelim (c : Char) : Bool := c == '/' || c == '?' || c == '#'

/-- The netloc-splitting step of `urlsplit`: if the remainder starts with
`"//"` the netloc runs up to the first of `/?#`. -/
def splitNetloc (rest : Str) : Str × Str :=
  if (strL "//").isPrefixOf rest then
    ((rest.drop 2).takeWhile (fun c => !netlocDelim c),
     (rest.drop 2).dropWhile (fun c => !netlocDelim c))
  else ([], rest)

/-- Result of `urllib.parse.urlparse` (the fields the program uses). -/
structure SplitResult where
  scheme : Str
  netloc : Str
  path : Str
  query : Str
  fragment : Str
deriving DecidableEq, Repr

/-- The scheme produced by `urlsplit` (first component of the scheme split). -/
def schemeOf (url : Str) : Str := (splitScheme url).1

/-- What remains of the url after the scheme split. -/
def afterScheme (url : Str) : Str := (splitScheme url).2

/-- The netloc produced by `urlsplit`. -/
def netlocOf (url : Str) : Str := (splitNetloc (afterScheme url)).1

/-- What remains of the url after the netloc split. -/
def afterNetloc (url : Str) : Str := (splitNetloc (afterScheme url)).2

/-- The remainder before the fragment split at the first `'#'`
(`url.split('#', 1)[0]` when a `'#'` is present). -/
def beforeFrag (url : Str) : Str :=
  if hasCh '#' (afterNetloc url) then beforeCh '#' (afterNetloc url)
  else afterNetloc url

/-- The fragment produced by `urlsplit`. -/
def fragmentOf (url : Str) : Str :=
  if hasCh '#' (afterNetloc url) then afterCh '#' (afterNetloc url) else []

/-- The path produced by `urlsplit`: what is left before the query split at
the first `'?'`. -/
def pathOf (url : Str) : Str :=
  if hasCh '?' (beforeFrag url) then beforeCh '?' (beforeFrag url)
  else beforeFrag url

/-- The query produced by `urlsplit`. -/
def queryOf (url : Str) : Str :=
  if hasCh '?' (beforeFrag url) then afterCh '?' (beforeFrag url) else []

/-- Model of `urllib.parse.urlparse(url)`: scheme split, netloc split with
the `ValueError` raised on an authority with unbalanced square brackets,
then the fragment split (first `'#'`) followed by the query split
(first `'?'`). -/
def urlparse (url : Str) : Except Unit SplitResult :=
  if hasCh '[' (netlocOf url) != hasCh ']' (netlocOf url) then Except.error ()
  else Except.ok ⟨schemeOf url, netlocOf url, pathOf url, queryOf url, fragmentOf url⟩

/-- The literal `"://"` used by the normalizer's format string. -/
def schemeSep : Str := strL "://"

/-- server.py lines 33-38, `normalize_url_for_comparison`:
lower-case the url, parse it, strip `"www."` from the host and trailing
`'/'` from the path, and rebuild `f"{scheme}://{host}{path}"`.  The
`Except` propagates the `ValueError` the parse can raise. -/
def normalize_url_for_comparison (url : Str) : Except Unit Str :=
  match urlparse (pyLowerL url) with
  | .error e => .error e
  | .ok parsed =>
      .ok (parsed.scheme ++ schemeSep ++ eraseWww parsed.netloc ++ pyRstrip '/' parsed.path)

/-- Python `re.search(r'\d', path_part)` viewed as a Bool (ASCII model). -/
def reSearchDigit (l : Str) : Bool := l.any (fun c => c.isDigit)

/-- Python `re.match(r'^[A-Z]{2,}[0-9]+', path_part, re.IGNORECASE)` viewed
as a Bool: at least two ASCII letters at the start, immediately followed by
a digit.  Since letters and digits are disjoint, the backtracking regex
succeeds iff the maximal leading letter run has length at least two and the
next character is a digit, which is what this computes. -/
def reMatchLettersDigits (l : Str) : Bool :=
  decide (2 ≤ (l.takeWhile (fun c => c.isAlpha)).length) &&
  (match l.dropWhile (fun c => c.isAlpha) with
   | c :: _ => c.isDigit
   | [] => false)

/-- server.py lines 41-53, `looks_like_product_identifier`. -/
def looks_like_product_identifier (path_part : Str) : Bool :=
  if reSearchDigit path_part then true
  else if reMatchLettersDigits path_part then true
  else false

/-- server.py lines 62-67, `category_keywords`. -/
def category_keywords : List Str :=
  [strL "lawn-mower", strL "mower", strL "generator", strL "pump",
   strL "engine", strL "tiller", strL "blower", strL "trimmer",
   strL "chainsaw", strL "sprayer", strL "washer", strL "marine",
   strL "outboard", strL "portable", strL "industrial", strL "domestic",
   strL "commercial", strL "accessories", strL "parts", strL "products",
   strL "category", strL "range", strL "series"]

/-- server.py lines 56-79, `looks_like_category`: a keyword substring of the
lower-cased segment, or a hyphen together with no digit (ASCII model of
`str.isdigit`). -/
def looks_like_category (path_part : Str) : Bool :=
  let path_lower := pyLowerL path_part
  if category_keywords.any (fun k => containsSub k path_lower) then true
  else if hasCh '-' path_part && !(path_part.any (fun c => c.isDigit)) then true
  else false

/-- The values `redirect_type` ranges over in `detect_redirect`. -/
inductive RedirectType where
  | none
  | domain
  | category
  | product
  | unknown
deriving DecidableEq, Repr

/-- The dictionary `detect_redirect` returns; `original_url` is present
only in the detected case (server.py lines 92-96 and 132-137). -/
structure RedirectResult where
  redirect_detected : Bool
  final_url : Str
  redirect_type : RedirectType
  original_url : Option Str
deriving DecidableEq, Repr

/-- `[p for p in parsed.path.split('/') if p]` (server.py lines 102-103). -/
def pathParts (path : Str) : List Str :=
  (path.splitOn '/').filter (fun p => !p.isEmpty)

/-- server.py lines 82-137, `detect_redirect`.  The `Except` propagates the
`ValueError` that `urlparse` (hence `normalize_url_for_comparison`) can
raise; the Python code does not catch it.  The final `else` keeping
`unknown` models the initial value of `redirect_type` on line 106, which
survives when no branch of the `if`/`elif` chain fires. -/
def detect_redirect (original_url final_url : Str) : Except Unit RedirectResult :=
  match normalize_url_for_comparison original_url with
  | .error e => .error e
  | .ok original_normalized =>
    match normalize_url_for_comparison final_url with
    | .error e => .error e
    | .ok final_normalized =>
      if original_normalized = final_normalized then
        Except.ok { redirect_detected := false, final_url := final_url,
                    redirect_type := RedirectType.none, original_url := Option.none }
      else
        match urlparse original_url with
        | .error e => .error e
        | .ok original_parsed =>
          match urlparse final_url with
          | .error e => .error e
          | .ok final_parsed =>
            let original_path_parts := pathParts original_parsed.path
            let final_path_parts := pathParts final_parsed.path
            let redirect_type :=
              if eraseWww original_parsed.netloc ≠ eraseWww final_parsed.netloc then
                RedirectType.domain
              else if final_path_parts.length < original_path_parts.length then
                RedirectType.category
              else if final_path_parts.length = original_path_parts.length ∧
                  final_path_parts ≠ original_path_parts then
                let original_last := original_path_parts.getLastD []
                let final_last := final_path_parts.getLastD []
                if looks_like_product_identifier original_last &&
                    looks_like_category final_last then
                  RedirectType.category
                else if looks_like_product_identifier original_last &&
                    !(looks_like_product_identifier final_last) then
                  RedirectType.category
                else
                  RedirectType.product
              else if original_path_parts.length < final_path_parts.length then
                RedirectType.unknown
              else
                RedirectType.unknown
            Except.ok { redirect_detected := true, final_url := final_url,
                        redirect_type := redirect_type,
                        original_url := some original_url }

/-- server.py line 183: `str(response.url) if hasattr(response, 'url') else
request.url`.  The optional argument models whether the fetch response has
a `url` attribute. -/
def final_url_of (response_url : Option Str) (request_url : Str) : Str :=
  match response_url with
  | some u => u
  | none => request_url

/-- A caught Python exception, as the handlers consume it:
`str(e)` and `type(e).__name__`. -/
structure PyExn where
  message : Str
  exn_class : Str
deriving DecidableEq, Repr

/-- An atomic JSON value appearing in the service's response bodies. -/
inductive JAtom where
  | s (v : Str)
  | b (v : Bool)
  | n (v : Nat)
  | strList (v : List Str)
deriving DecidableEq, Repr

/-- A JSON field value: an atom or a one-level nested object. -/
inductive JField where
  | atom (v : JAtom)
  | obj (fields : List (Str × JAtom))
deriving DecidableEq, Repr

/-- An HTTP response as the handlers build it: status code plus JSON body. -/
structure JResp where
  status_code : Nat
  body : List (Str × JField)
deriving DecidableEq, Repr

/-- server.py lines 202-214: the body the `/scrape` handler returns when
the try-block raises (`JSONResponse(status_code=500, content=...)`). -/
def scrape_error_response (request_url : Str) (e : PyExn) : JResp :=
  { status_code := 500,
    body := [(strL "success", JField.atom (JAtom.b false)),
             (strL "detail",
              JField.obj [(strL "message", JAtom.s e.message),
                          (strL "url", JAtom.s request_url),
                          (strL "error_type", JAtom.s e.exn_class)])] }

/-- server.py lines 217-248, the `/sitemap` handler.  The external fetch,
the `ElementTree` parse and the `<url><loc>` extraction are abstracted into
`outcome`: `Except.ok urls` when the try-block reaches line 242 with the
extracted url list, `Except.error e` when anything in the try-block raises
(the handler catches every exception). -/
def sitemap_endpoint (_request_url : Str)
    (outcome : Except PyExn (List Str)) : JResp :=
  match outcome with
  | .ok urls =>
      { status_code := 200,
        body := [(strL "success", JField.atom (JAtom.b true)),
                 (strL "urls", JField.atom (JAtom.strList urls)),
                 (strL "count", JField.atom (JAtom.n urls.length))] }
  | .error e =>
      { status_code := 500,
        body := [(strL "success", JField.atom (JAtom.b false)),
                 (strL "error", JField.atom (JAtom.s e.message))] }

/-- The keys of a nested object field (none for an atom). -/
def fieldKeys : JField → List Str
  | .atom _ => []
  | .obj fields => fields.map Prod.fst

/-- All keys appearing in a response body, top-level and nested. -/
def respKeys (r : JResp) : List Str :=
  r.body.map Prod.fst ++ (r.body.map (fun kv => fieldKeys kv.2)).flatten

/-- Whether a key appears anywhere in a response body. -/
def hasKey (k : Str) (r : JResp) : Bool :=
  (respKeys r).any (fun x => x == k)

/-- The pattern string removed from hosts, as an explicit character list. -/
def wwwDot : Str := ['w', 'w', 'w', '.']

theorem wwwDot_eq_strL : wwwDot = strL "www." := rfl

theorem char_toNat_ofNat {n : Nat} (h : n.isValidChar) : (Char.ofNat n).toNat = n := by
  simp [Char.ofNat, h, Char.ofNatAux, Char.toNat, UInt32.toNat, BitVec.toNat_ofNatLt]

theorem toLower_eq (c : Char) :
    c.toLower = if c.toNat ≥ 65 ∧ c.toNat ≤ 90 then Char.ofNat (c.toNat + 32) else c := rfl

theorem toLower_toLower (c : Char) : c.toLower.toLower = c.toLower := by
  by_cases h1 : c.toNat ≥ 65 ∧ c.toNat ≤ 90
  · have hv : Nat.isValidChar (c.toNat + 32) := Or.inl (by omega)
    have h2 : c.toLower = Char.ofNat (c.toNat + 32) := by rw [toLower_eq, if_pos h1]
    rw [h2, toLower_eq, if_neg]
    intro hc
    rw [char_toNat_ofNat hv] at hc
    omega
  · have h2 : c.toLower = c := by rw [toLower_eq, if_neg h1]
    rw [h2]
    exact h2

theorem toLower_fixed_target {c t : Char} (ht : t.toNat < 97 ∨ 122 < t.toNat)
    (h : c.toLower = t) : c = t := by
  rw [toLower_eq] at h
  by_cases h1 : c.toNat ≥ 65 ∧ c.toNat ≤ 90
  · rw [if_pos h1] at h
    have hv : Nat.isValidChar (c.toNat + 32) := Or.inl (by omega)
    have := congrArg Char.toNat h
    rw [char_toNat_ofNat hv] at this
    omega
  · rwa [if_neg h1] at h

theorem mem_pyLowerL_fixed {c : Char} {l : Str} (h : c ∈ pyLowerL l) :
    c.toLower = c := by
  obtain ⟨a, _, rfl⟩ := List.mem_map.mp h
  exact toLower_toLower a

theorem pyLowerL_eq_self {m : Str} (h : ∀ c ∈ m, c.toLower = c) :
    pyLowerL m = m := by
  unfold pyLowerL
  induction m with
  | nil => rfl
  | cons a t ih =>
    simp only [List.map_cons, List.cons.injEq]
    exact ⟨h a (List.mem_cons_self a t), ih fun c hc => h c (List.mem_cons_of_mem a hc)⟩

theorem pyLowerL_idem (l : Str) : pyLowerL (pyLowerL l) = pyLowerL l :=
  pyLowerL_eq_self fun _ hc => mem_pyLowerL_fixed hc

theorem hasCh_true_iff {c : Char} {l : Str} : hasCh c l = true ↔ c ∈ l := by
  simp [hasCh]

theorem hasCh_false_iff {c : Char} {l : Str} : hasCh c l = false ↔ c ∉ l := by
  rw [← Bool.not_eq_true, not_iff_not]
  exact hasCh_true_iff

theorem takeWhile_append_all {q : Char → Bool} {x : Str} (r : Str)
    (hx : ∀ c ∈ x, q c = true) :
    (x ++ r).takeWhile q = x ++ r.takeWhile q := by
  induction x with
  | nil => rfl
  | cons a t ih =>
    rw [List.cons_append, List.takeWhile_cons, hx a (List.mem_cons_self a t),
      ih fun c hc => hx c (List.mem_cons_of_mem a hc), List.cons_append]
    simp

theorem dropWhile_append_all {q : Char → Bool} {x : Str} (r : Str)
    (hx : ∀ c ∈ x, q c = true) :
    (x ++ r).dropWhile q = r.dropWhile q := by
  induction x with
  | nil => rfl
  | cons a t ih =>
    rw [List.cons_append, List.dropWhile_cons, hx a (List.mem_cons_self a t)]
    exact ih fun c hc => hx c (List.mem_cons_of_mem a hc)

theorem takeWhile_middle {q : Char → Bool} {x : Str} {sep : Char} (r : Str)
    (hx : ∀ c ∈ x, q c = true) (hs : q sep = false) :
    (x ++ sep :: r).takeWhile q = x := by
  rw [takeWhile_append_all _ hx, List.takeWhile_cons, hs]
  simp

theorem dropWhile_middle {q : Char → Bool} {x : Str} {sep : Char} (r : Str)
    (hx : ∀ c ∈ x, q c = true) (hs : q sep = false) :
    (x ++ sep :: r).dropWhile q = sep :: r := by
  rw [dropWhile_append_all _ hx, List.dropWhile_cons, hs]
  simp

theorem dropWhile_idem (q : Char → Bool) (l : Str) :
    (l.dropWhile q).dropWhile q = l.dropWhile q := by
  induction l with
  | nil => rfl
  | cons a t ih =>
    by_cases h : q a = true
    · rw [List.dropWhile_cons, if_pos h]
      exact ih
    · rw [List.dropWhile_cons, if_neg h, List.dropWhile_cons, if_neg h]

theorem dropWhile_replicate_append {q : Char → Bool} {c : Char} (k : Nat) (l : Str)
    (hc : q c = true) :
    (List.replicate k c ++ l).dropWhile q = l.dropWhile q := by
  induction k with
  | zero => rfl
  | succ n ih =>
    rw [List.replicate_succ, List.cons_append, List.dropWhile_cons, if_pos hc]
    exact ih

theorem dropWhile_eq_self_of_head {q : Char → Bool} {l : Str}
    (h : ∀ a, l.head? = some a → q a = false) : l.dropWhile q = l := by
  cases l with
  | nil => rfl
  | cons a t => rw [List.dropWhile_cons, if_neg (by rw [h a rfl]; simp)]

theorem eraseWww_cons {c : Char} {t : Str} (h : wwwDot.isPrefixOf (c :: t) = false) :
    eraseWww (c :: t) = c :: eraseWww t := by
  rw [eraseWww.eq_def]
  split
  · next r heq =>
    rw [heq] at h
    simp [wwwDot, List.isPrefixOf] at h
  · next c2 r2 hno heq =>
    injection heq with h1 h2
    subst h1; subst h2; rfl
  · next heq => simp at heq

theorem eraseWww_wwwDot_append (r : Str) : eraseWww (wwwDot ++ r) = eraseWww r := rfl

theorem eraseWww_append_no_w {x : Str} (r : Str) (hx : ∀ c ∈ x, c ≠ 'w') :
    eraseWww (x ++ r) = x ++ eraseWww r := by
  induction x with
  | nil => rfl
  | cons a t ih =>
    have ha : a ≠ 'w' := hx a (List.mem_cons_self a t)
    have hp : wwwDot.isPrefixOf (a :: (t ++ r)) = false := by
      simp only [wwwDot, List.isPrefixOf]
      simp [Ne.symm ha]
    rw [List.cons_append, eraseWww_cons hp,
      ih fun c hc => hx c (List.mem_cons_of_mem a hc), List.cons_append]

theorem eraseWww_eq_self_of_not_contains {y : Str}
    (h : containsSub wwwDot y = false) : eraseWww y = y := by
  induction y with
  | nil => rfl
  | cons c t ih =>
    rw [containsSub, Bool.or_eq_false_iff] at h
    rw [eraseWww_cons h.1, ih h.2]

theorem mem_eraseWww {a : Char} {l : Str} (h : a ∈ eraseWww l) : a ∈ l := by
  induction l using eraseWww.induct with
  | case1 rest ih =>
    exact List.mem_cons_of_mem _ (List.mem_cons_of_mem _ (List.mem_cons_of_mem _
      (List.mem_cons_of_mem _ (ih h))))
  | case2 c rest hno ih =>
    have hp : wwwDot.isPrefixOf (c :: rest) = false := by
      by_contra hx
      rw [Bool.not_eq_false] at hx
      obtain ⟨s, hs⟩ := List.isPrefixOf_iff_prefix.mp hx
      injection hs with h1 h2
      exact hno s h1.symm h2.symm
    rw [eraseWww_cons hp] at h
    rcases List.mem_cons.mp h with h | h
    · exact h ▸ List.mem_cons_self c rest
    · exact List.mem_cons_of_mem c (ih h)
  | case3 => exact absurd h (List.not_mem_nil a)

theorem pyRstrip_prefix_orig (c : Char) (l : Str) : pyRstrip c l <+: l := by
  have h1 : (l.reverse.dropWhile (fun x => x == c)) <:+ l.reverse :=
    List.dropWhile_suffix _
  have h2 := List.reverse_prefix.mpr h1
  rwa [List.reverse_reverse] at h2

theorem pyRstrip_subset (c : Char) (l : Str) : pyRstrip c l ⊆ l :=
  (pyRstrip_prefix_orig c l).sublist.subset

theorem pyRstrip_idem (c : Char) (l : Str) :
    pyRstrip c (pyRstrip c l) = pyRstrip c l := by
  unfold pyRstrip
  rw [List.reverse_reverse, dropWhile_idem]

theorem pyRstrip_append_replicate {p : Str} (k : Nat)
    (hlast : p.getLast? ≠ some '/') :
    pyRstrip '/' (p ++ List.replicate k '/') = p := by
  unfold pyRstrip
  rw [List.reverse_append, List.reverse_replicate,
    dropWhile_replicate_append k _ (by simp),
    dropWhile_eq_self_of_head, List.reverse_reverse]
  intro a ha
  rw [List.head?_reverse] at ha
  have : a ≠ '/' := fun hc => hlast (by rw [← hc]; exact ha)
  simp [this]

theorem validScheme_all {s : Str} (h : validScheme s = true) :
    ∀ c ∈ s, schemeChar c = true := by
  cases s with
  | nil => simp [validScheme] at h
  | cons a t =>
    rw [validScheme, Bool.and_eq_true] at h
    exact List.all_eq_true.mp h.2

theorem schemeChar_ne_colon {c : Char} (h : schemeChar c = true) : c ≠ ':' := by
  intro hc
  subst hc
  simp [schemeChar] at h

theorem schemeOf_lower (l : Str) : pyLowerL (schemeOf l) = schemeOf l := by
  unfold schemeOf splitScheme
  split
  · exact pyLowerL_idem _
  · rfl

theorem mem_afterScheme {c : Char} {l : Str} (h : c ∈ afterScheme l) : c ∈ l := by
  unfold afterScheme splitScheme at h
  split at h
  · exact List.dropWhile_subset _ (List.drop_subset _ _ h)
  · exact h

theorem mem_netlocOf {c : Char} {l : Str} (h : c ∈ netlocOf l) : c ∈ l := by
  unfold netlocOf splitNetloc at h
  split at h
  · exact mem_afterScheme (List.drop_subset _ _ (List.takeWhile_subset _ h))
  · exact absurd h (List.not_mem_nil c)

theorem netlocOf_no_delim {c : Char} {l : Str} (h : c ∈ netlocOf l) :
    netlocDelim c = false := by
  unfold netlocOf splitNetloc at h
  split at h
  · have := List.mem_takeWhile_imp h
    rwa [Bool.not_eq_eq_eq_not, Bool.not_true] at this
  · exact absurd h (List.not_mem_nil c)

theorem mem_afterNetloc {c : Char} {l : Str} (h : c ∈ afterNetloc l) : c ∈ l := by
  unfold afterNetloc splitNetloc at h
  split at h
  · exact mem_afterScheme (List.drop_subset _ _ (List.dropWhile_subset _ h))
  · exact mem_afterScheme h

theorem mem_beforeFrag {c : Char} {l : Str} (h : c ∈ beforeFrag l) :
    c ∈ afterNetloc l := by
  unfold beforeFrag at h
  split at h
  · exact List.takeWhile_subset _ h
  · exact h

theorem mem_pathOf {c : Char} {l : Str} (h : c ∈ pathOf l) : c ∈ l := by
  unfold pathOf at h
  split at h
  · exact mem_afterNetloc (mem_beforeFrag (List.takeWhile_subset _ h))
  · exact mem_afterNetloc (mem_beforeFrag h)

theorem hash_not_mem_beforeFrag (l : Str) : '#' ∉ beforeFrag l := by
  unfold beforeFrag
  split
  · intro h
    have := List.mem_takeWhile_imp h
    simp at this
  · next hc =>
    rw [Bool.not_eq_true] at hc
    exact hasCh_false_iff.mp hc

theorem hash_not_mem_pathOf (l : Str) : '#' ∉ pathOf l := by
  unfold pathOf
  split
  · intro h
    exact hash_not_mem_beforeFrag l (List.takeWhile_subset _ h)
  · exact hash_not_mem_beforeFrag l

theorem qmark_not_mem_pathOf (l : Str) : '?' ∉ pathOf l := by
  unfold pathOf
  split
  · intro h
    have := List.mem_takeWhile_imp h
    simp at this
  · next hc =>
    rw [Bool.not_eq_true] at hc
    exact hasCh_false_iff.mp hc

theorem urlparse_ok_inv {l : Str} {pr : SplitResult} (h : urlparse l = .ok pr) :
    pr = ⟨schemeOf l, netlocOf l, pathOf l, queryOf l, fragmentOf l⟩ := by
  unfold urlparse at h
  split at h
  · exact absurd h (by simp)
  · injection h with h1
    exact h1.symm

theorem urlparse_ok_of_netloc_no_brackets {l : Str}
    (h : ∀ c ∈ netlocOf l, c ≠ '[' ∧ c ≠ ']') :
    urlparse l = .ok ⟨schemeOf l, netlocOf l, pathOf l, queryOf l, fragmentOf l⟩ := by
  unfold urlparse
  rw [if_neg]
  rw [hasCh_false_iff.mpr fun hc => (h _ hc).1 rfl,
    hasCh_false_iff.mpr fun hc => (h _ hc).2 rfl]
  simp

theorem normalize_of_parse {u : Str} {pr : SplitResult}
    (h : urlparse (pyLowerL u) = .ok pr) :
    normalize_url_for_comparison u =
      .ok (pr.scheme ++ schemeSep ++ eraseWww pr.netloc ++ pyRstrip '/' pr.path) := by
  unfold normalize_url_for_comparison
  rw [h]

/-- C2: for every URL string `u` whose normalization succeeds (the spec's
"well-formed URL"), `classify(u, u)` returns `detected = false` with type
`none`; in particular, when the fetch result has no final-url attribute and
`final_url` falls back to the request url, the result is guaranteed
`detected = false`. -/
theorem C2_identity_no_redirect (u k : Str)
    (hk : normalize_url_for_comparison u = .ok k) :
    detect_redirect u u =
      Except.ok { redirect_detected := false, final_url := u,
                  redirect_type := RedirectType.none, original_url := Option.none } ∧
    detect_redirect u (final_url_of Option.none u) =
      Except.ok { redirect_detected := false, final_url := u,
                  redirect_type := RedirectType.none, original_url := Option.none } := by
  have h1 : detect_redirect u u =
      Except.ok { redirect_detected := false, final_url := u,
                  redirect_type := RedirectType.none, original_url := Option.none } := by
    unfold detect_redirect
    rw [hk]
    simp
  exact ⟨h1, by rw [show final_url_of Option.none u = u from rfl]; exact h1⟩

/-- Witness for C2 at the concrete URL `http://a.com/x`. -/
theorem C2_witness :
    detect_redirect (strL "http://a.com/x") (strL "http://a.com/x") =
      Except.ok { redirect_detected := false, final_url := strL "http://a.com/x",
                  redirect_type := RedirectType.none, original_url := Option.none } ∧
    detect_redirect (strL "http://a.com/x")
        (final_url_of Option.none (strL "http://a.com/x")) =
      Except.ok { redirect_detected := false, final_url := strL "http://a.com/x",
                  redirect_type := RedirectType.none, original_url := Option.none } :=
  C2_identity_no_redirect (strL "http://a.com/x") (strL "http://a.com/x") (by decide)

/-- C7: `looks_like_product_identifier` returns true iff the segment
contains a decimal digit; the second rule (two or more letters followed by
digits, anchored at the start) is subsumed by the digit rule and never
changes the result. -/
theorem C7_product_identifier_iff_digit (s : Str) :
    looks_like_product_identifier s = s.any (fun c => c.isDigit) := by
  unfold looks_like_product_identifier reSearchDigit
  cases hd : s.any (fun c => c.isDigit) with
  | true => simp [hd]
  | false =>
    simp only [hd, Bool.false_eq_true, if_false]
    cases hm : reMatchLettersDigits s with
    | false => simp
    | true =>
      exfalso
      unfold reMatchLettersDigits at hm
      rw [Bool.and_eq_true] at hm
      rcases hm with ⟨-, hm2⟩
      cases hdrop : s.dropWhile (fun c => c.isAlpha) with
      | nil => rw [hdrop] at hm2; simp at hm2
      | cons c r =>
        rw [hdrop] at hm2
        have hcs : c ∈ s :=
          List.dropWhile_subset _ (hdrop ▸ List.mem_cons_self c r)
        have : s.any (fun c => c.isDigit) = true :=
          List.any_eq_true.mpr ⟨c, hcs, hm2⟩
        rw [hd] at this
        exact Bool.false_ne_true this

/-- C1: for URLs with differing normalized keys, equal stripped hosts, and
equal-length but element-wise differing path-segment lists, the classifier
detects a redirect and types it `category` exactly when the last original
segment is a product identifier and the last final segment is a category or
not a product identifier; in every other such case the type is `product`. -/
theorem C1_equal_length_rules (u f : Str) (pu pf : SplitResult) (ku kf : Str)
    (hnu : normalize_url_for_comparison u = .ok ku)
    (hnf : normalize_url_for_comparison f = .ok kf)
    (hne : ku ≠ kf)
    (hpu : urlparse u = .ok pu)
    (hpf : urlparse f = .ok pf)
    (hhost : eraseWww pu.netloc = eraseWww pf.netloc)
    (hlen : (pathParts pf.path).length = (pathParts pu.path).length)
    (hdiff : pathParts pf.path ≠ pathParts pu.path) :
    detect_redirect u f = Except.ok
      { redirect_detected := true, final_url := f,
        redirect_type :=
          if looks_like_product_identifier ((pathParts pu.path).getLastD []) &&
              (looks_like_category ((pathParts pf.path).getLastD []) ||
               !(looks_like_product_identifier ((pathParts pf.path).getLastD []))) then
            RedirectType.category
          else RedirectType.product,
        original_url := some u } := by
  unfold detect_redirect
  rw [hnu, hnf]
  dsimp only
  rw [if_neg hne, hpu, hpf]
  dsimp only
  rw [if_neg (not_not_intro hhost), if_neg (by simp [hlen]), if_pos ⟨hlen, hdiff⟩]
  cases hA : looks_like_product_identifier ((pathParts pu.path).getLastD []) <;>
    cases hB : looks_like_category ((pathParts pf.path).getLastD []) <;>
      cases hC : looks_like_product_identifier ((pathParts pf.path).getLastD []) <;>
        simp [hA, hB, hC]

/-- Witness for C1: `/products/hrx217` redirected to `/products/lawn-mowers`
is typed `category`. -/
theorem C1_witness :
    detect_redirect (strL "http://a.com/products/hrx217")
        (strL "http://a.com/products/lawn-mowers") = Except.ok
      { redirect_detected := true,
        final_url := strL "http://a.com/products/lawn-mowers",
        redirect_type := RedirectType.category,
        original_url := some (strL "http://a.com/products/hrx217") } := by
  have h := C1_equal_length_rules
    (strL "http://a.com/products/hrx217") (strL "http://a.com/products/lawn-mowers")
    ⟨strL "http", strL "a.com", strL "/products/hrx217", [], []⟩
    ⟨strL "http", strL "a.com", strL "/products/lawn-mowers", [], []⟩
    (strL "http://a.com/products/hrx217") (strL "http://a.com/products/lawn-mowers")
    (by decide) (by decide) (by decide) (by decide) (by decide) (by decide)
    (by decide) (by decide)
  exact h.trans (by decide)

/-- C3: for URLs with differing normalized keys but equal stripped hosts,
when the path-segment lists are identical, or the final list is strictly
longer, the classifier detects a redirect of type `unknown`. -/
theorem C3_identical_or_longer_unknown (u f : Str) (pu pf : SplitResult) (ku kf : Str)
    (hnu : normalize_url_for_comparison u = .ok ku)
    (hnf : normalize_url_for_comparison f = .ok kf)
    (hne : ku ≠ kf)
    (hpu : urlparse u = .ok pu)
    (hpf : urlparse f = .ok pf)
    (hhost : eraseWww pu.netloc = eraseWww pf.netloc)
    (hcase : pathParts pf.path = pathParts pu.path ∨
      (pathParts pu.path).length < (pathParts pf.path).length) :
    detect_redirect u f = Except.ok
      { redirect_detected := true, final_url := f,
        redirect_type := RedirectType.unknown, original_url := some u } := by
  unfold detect_redirect
  rw [hnu, hnf]
  dsimp only
  rw [if_neg hne, hpu, hpf]
  dsimp only
  rw [if_neg (not_not_intro hhost)]
  rcases hcase with he | hl
  · rw [if_neg (by simp [he]), if_neg (fun hc => hc.2 he), ite_self]
  · rw [if_neg (Nat.lt_asymm hl), if_neg (fun hc => Nat.ne_of_gt hl hc.1),
      if_pos hl]

/-- Witness for C3: a scheme-only change (`http` to `https`) with identical
segments is typed `unknown`. -/
theorem C3_witness :
    detect_redirect (strL "http://a.com/x") (strL "https://a.com/x") = Except.ok
      { redirect_detected := true, final_url := strL "https://a.com/x",
        redirect_type := RedirectType.unknown,
        original_url := some (strL "http://a.com/x") } := by
  have h := C3_identical_or_longer_unknown
    (strL "http://a.com/x") (strL "https://a.com/x")
    ⟨strL "http", strL "a.com", strL "/x", [], []⟩
    ⟨strL "https", strL "a.com", strL "/x", [], []⟩
    (strL "http://a.com/x") (strL "https://a.com/x")
    (by decide) (by decide) (by decide) (by decide) (by decide) (by decide)
    (Or.inl (by decide))
  exact h

/-- C8: on the empty segment both classifiers return false:
`looks_like_product_identifier` finds no digit and no letters-then-digits
match, and `looks_like_category` finds no keyword and no hyphen. -/
theorem C8_empty_segment :
    looks_like_product_identifier [] = false ∧ looks_like_category [] = false := by
  decide

/-- Counterexample to C4: in `http://x.www.com/a` the host contains
`"www."` only as a non-leading occurrence, yet the normalizer removes it
from the returned key instead of leaving it unchanged. -/
theorem C4_counterexample :
    wwwDot.isPrefixOf (strL "x.www.com") = false ∧
    containsSub wwwDot (strL "x.www.com") = true ∧
    normalize_url_for_comparison (strL "http://x.www.com/a") =
      .ok (strL "http://x.com/a") ∧
    strL "http://x.com/a" ≠ strL "http://x.www.com/a" := by
  decide

/-- C4 as amended: the normalizer removes every occurrence of `"www."`
from the host, not only a leading one; for a host of the form
`x ++ "www." ++ y` (with no `'w'` in `x` and no further occurrence in `y`)
the key's host is `x ++ y`. -/
theorem C4_amended (u : Str) (pr : SplitResult) (x y : Str)
    (hpr : urlparse (pyLowerL u) = .ok pr)
    (hnet : pr.netloc = x ++ wwwDot ++ y)
    (hx : ∀ c ∈ x, c ≠ 'w')
    (hy : containsSub wwwDot y = false) :
    normalize_url_for_comparison u =
      .ok (pr.scheme ++ schemeSep ++ (x ++ y) ++ pyRstrip '/' pr.path) := by
  rw [normalize_of_parse hpr, hnet]
  have herase : eraseWww (x ++ wwwDot ++ y) = x ++ y := by
    rw [List.append_assoc, eraseWww_append_no_w _ hx, eraseWww_wwwDot_append,
      eraseWww_eq_self_of_not_contains hy]
  rw [herase]

/-- Witness for C4 as amended at `http://x.www.com/a`. -/
theorem C4_witness :
    normalize_url_for_comparison (strL "http://x.www.com/a") =
      .ok (strL "http://x.com/a") := by
  have h := C4_amended (strL "http://x.www.com/a")
    ⟨strL "http", strL "x.www.com", strL "/a", [], []⟩
    (strL "x.") (strL "com")
    (by decide) (by decide) (by decide) (by decide)
  exact h.trans (by decide)

/-- Counterexample to C5: the path `/x//` ends in two separators and the
normalizer strips both, so the key does not keep one trailing `'/'`. -/
theorem C5_counterexample :
    normalize_url_for_comparison (strL "http://a.com/x//") =
      .ok (strL "http://a.com/x") ∧
    strL "http://a.com/x" ≠ strL "http://a.com/x/" := by
  decide

/-- C5 as amended: the normalizer strips every trailing `'/'` from the
path (not exactly one), and internal duplicate separators are preserved:
for a path `p ++ replicate k '/'` with `p` not ending in `'/'`, the key's
path is exactly `p`. -/
theorem C5_amended (u : Str) (pr : SplitResult) (p : Str) (k : Nat)
    (hpr : urlparse (pyLowerL u) = .ok pr)
    (hpath : pr.path = p ++ List.replicate k '/')
    (hlast : p.getLast? ≠ some '/') :
    normalize_url_for_comparison u =
      .ok (pr.scheme ++ schemeSep ++ eraseWww pr.netloc ++ p) := by
  rw [normalize_of_parse hpr, hpath, pyRstrip_append_replicate k hlast]

/-- Witness for C5 as amended at `http://a.com/a//b//`: both trailing
slashes are removed while the internal `//` is preserved. -/
theorem C5_witness :
    normalize_url_for_comparison (strL "http://a.com/a//b//") =
      .ok (strL "http://a.com/a//b") := by
  have h := C5_amended (strL "http://a.com/a//b//")
    ⟨strL "http", strL "a.com", strL "/a//b//", [], []⟩
    (strL "/a//b") 2 (by decide) (by decide) (by decide)
  exact h.trans (by decide)

/-- Counterexample to C6: normalization is not idempotent on every URL
string; for the scheme-less input `"a"` the first pass yields `"://a"` and
a second pass yields `"://://a"`. -/
theorem C6_counterexample :
    normalize_url_for_comparison (strL "a") = .ok (strL "://a") ∧
    normalize_url_for_comparison (strL "://a") = .ok (strL "://://a") ∧
    strL "://://a" ≠ strL "://a" := by
  decide

/-- A normalized key of the shape `scheme://host+path` (valid lower-case
scheme, delimiter-free bracket-free lower-case host without `"www."`,
lower-case path that is empty or starts with `'/'`, has no `'#'`/`'?'` and
no trailing `'/'`) is a fixed point of the normalizer. -/
theorem normalize_fixed (s h p : Str)
    (hs : validScheme s = true)
    (hls : pyLowerL s = s)
    (hh_low : ∀ c ∈ h, Char.toLower c = c)
    (hp_low : ∀ c ∈ p, Char.toLower c = c)
    (hh_delim : ∀ c ∈ h, netlocDelim c = false)
    (hh_br : '[' ∉ h ∧ ']' ∉ h)
    (hp_sep : '#' ∉ p ∧ '?' ∉ p)
    (hp_shape : p = [] ∨ ∃ p2, p = '/' :: p2)
    (hw : containsSub wwwDot h = false)
    (hrs : pyRstrip '/' p = p) :
    normalize_url_for_comparison (s ++ ':' :: '/' :: '/' :: (h ++ p)) =
      .ok (s ++ ':' :: '/' :: '/' :: (h ++ p)) := by
  have hs_ncolon : ∀ c ∈ s, (c != ':') = true := fun c hc =>
    bne_iff_ne.mpr (schemeChar_ne_colon (validScheme_all hs c hc))
  have hh_delim2 : ∀ c ∈ h, (!netlocDelim c) = true := by
    intro c hc; rw [hh_delim c hc]; rfl
  have hlow : pyLowerL (s ++ ':' :: '/' :: '/' :: (h ++ p)) =
      s ++ ':' :: '/' :: '/' :: (h ++ p) := by
    unfold pyLowerL
    rw [List.map_append, List.map_cons, List.map_cons, List.map_cons,
      List.map_append]
    rw [show List.map Char.toLower s = s from hls,
      show Char.toLower ':' = ':' from by decide,
      show Char.toLower '/' = '/' from by decide,
      show List.map Char.toLower h = h from pyLowerL_eq_self hh_low,
      show List.map Char.toLower p = p from pyLowerL_eq_self hp_low]
  have hbefore : beforeCh ':' (s ++ ':' :: '/' :: '/' :: (h ++ p)) = s :=
    takeWhile_middle _ hs_ncolon (by decide)
  have hafter : afterCh ':' (s ++ ':' :: '/' :: '/' :: (h ++ p)) =
      '/' :: '/' :: (h ++ p) := by
    unfold afterCh
    rw [dropWhile_middle _ hs_ncolon (by decide)]
    rfl
  have hhasc : hasCh ':' (s ++ ':' :: '/' :: '/' :: (h ++ p)) = true :=
    hasCh_true_iff.mpr (List.mem_append.mpr (Or.inr (List.mem_cons_self _ _)))
  have hsplits : splitScheme (s ++ ':' :: '/' :: '/' :: (h ++ p)) =
      (s, '/' :: '/' :: (h ++ p)) := by
    unfold splitScheme
    rw [hbefore, hhasc, hs, hafter, hls]
    rfl
  have hscheme : schemeOf (s ++ ':' :: '/' :: '/' :: (h ++ p)) = s := by
    unfold schemeOf; rw [hsplits]
  have hafters : afterScheme (s ++ ':' :: '/' :: '/' :: (h ++ p)) =
      '/' :: '/' :: (h ++ p) := by
    unfold afterScheme; rw [hsplits]
  have hpre : (strL "//").isPrefixOf ('/' :: '/' :: (h ++ p)) = true := by
    rw [show strL "//" = ['/', '/'] from rfl]
    simp [List.isPrefixOf]
  have htake : (h ++ p).takeWhile (fun c => !netlocDelim c) = h := by
    rcases hp_shape with rfl | ⟨p2, rfl⟩
    · rw [List.append_nil]
      exact List.takeWhile_eq_self_iff.mpr hh_delim2
    · exact takeWhile_middle _ hh_delim2 (by decide)
  have hdrop : (h ++ p).dropWhile (fun c => !netlocDelim c) = p := by
    rcases hp_shape with rfl | ⟨p2, rfl⟩
    · rw [List.append_nil]
      exact List.dropWhile_eq_nil_iff.mpr fun c hc => hh_delim2 c hc
    · exact dropWhile_middle _ hh_delim2 (by decide)
  have hnet : netlocOf (s ++ ':' :: '/' :: '/' :: (h ++ p)) = h := by
    unfold netlocOf splitNetloc
    rw [hafters, if_pos hpre]
    dsimp only
    rw [show ('/' :: '/' :: (h ++ p)).drop 2 = h ++ p from rfl, htake]
  have hanet : afterNetloc (s ++ ':' :: '/' :: '/' :: (h ++ p)) = p := by
    unfold afterNetloc splitNetloc
    rw [hafters, if_pos hpre]
    dsimp only
    rw [show ('/' :: '/' :: (h ++ p)).drop 2 = h ++ p from rfl, hdrop]
  have hnothash : hasCh '#' p = false := hasCh_false_iff.mpr hp_sep.1
  have hnotq : hasCh '?' p = false := hasCh_false_iff.mpr hp_sep.2
  have hbf : beforeFrag (s ++ ':' :: '/' :: '/' :: (h ++ p)) = p := by
    unfold beforeFrag
    rw [hanet, hnothash]
    simp
  have hpath : pathOf (s ++ ':' :: '/' :: '/' :: (h ++ p)) = p := by
    unfold pathOf
    rw [hbf, hnotq]
    simp
  have hquery : queryOf (s ++ ':' :: '/' :: '/' :: (h ++ p)) = [] := by
    unfold queryOf
    rw [hbf, hnotq]
    simp
  have hfrag : fragmentOf (s ++ ':' :: '/' :: '/' :: (h ++ p)) = [] := by
    unfold fragmentOf
    rw [hanet, hnothash]
    simp
  have hparsek : urlparse (s ++ ':' :: '/' :: '/' :: (h ++ p)) =
      .ok ⟨s, h, p, [], []⟩ := by
    rw [urlparse_ok_of_netloc_no_brackets (fun c hc => by
      rw [hnet] at hc
      exact ⟨fun hb => hh_br.1 (hb ▸ hc), fun hb => hh_br.2 (hb ▸ hc)⟩)]
    rw [hscheme, hnet, hpath, hquery, hfrag]
  unfold normalize_url_for_comparison
  rw [hlow, hparsek]
  dsimp only
  rw [eraseWww_eq_self_of_not_contains hw, hrs, List.append_assoc,
    List.append_assoc]
  rfl

/-- C6 as amended: normalization is idempotent on every URL that parses
with a valid scheme, whose normalized host contains no residual `"www."`
and no square brackets, and whose path is either empty or rooted at `'/'`
(which is every absolute URL with an authority); it is not idempotent on
arbitrary strings. -/
theorem C6_amended (u k : Str) (pr : SplitResult)
    (hpr : urlparse (pyLowerL u) = .ok pr)
    (hk : normalize_url_for_comparison u = .ok k)
    (hs : validScheme pr.scheme = true)
    (hw : containsSub wwwDot (eraseWww pr.netloc) = false)
    (hbr : ∀ c ∈ pr.netloc, c ≠ '[' ∧ c ≠ ']')
    (hhead : pr.path.head? = some '/' ∨ pr.path = []) :
    normalize_url_for_comparison k = .ok k := by
  have hkval : k = pr.scheme ++ schemeSep ++ eraseWww pr.netloc ++
      pyRstrip '/' pr.path :=
    Except.ok.inj (hk.symm.trans (normalize_of_parse hpr))
  have hcomp := urlparse_ok_inv hpr
  have hsch : pr.scheme = schemeOf (pyLowerL u) := by rw [hcomp]
  have hnl : pr.netloc = netlocOf (pyLowerL u) := by rw [hcomp]
  have hpa : pr.path = pathOf (pyLowerL u) := by rw [hcomp]
  have hls : pyLowerL pr.scheme = pr.scheme := by rw [hsch]; exact schemeOf_lower _
  have hh_low : ∀ c ∈ eraseWww pr.netloc, Char.toLower c = c := by
    intro c hc
    have h1 : c ∈ pr.netloc := mem_eraseWww hc
    rw [hnl] at h1
    exact mem_pyLowerL_fixed (mem_netlocOf h1)
  have hp_low : ∀ c ∈ pyRstrip '/' pr.path, Char.toLower c = c := by
    intro c hc
    have h1 : c ∈ pr.path := pyRstrip_subset _ _ hc
    rw [hpa] at h1
    exact mem_pyLowerL_fixed (mem_pathOf h1)
  have hh_delim : ∀ c ∈ eraseWww pr.netloc, netlocDelim c = false := by
    intro c hc
    have h1 : c ∈ pr.netloc := mem_eraseWww hc
    rw [hnl] at h1
    exact netlocOf_no_delim h1
  have hh_br : '[' ∉ eraseWww pr.netloc ∧ ']' ∉ eraseWww pr.netloc :=
    ⟨fun hc => (hbr _ (mem_eraseWww hc)).1 rfl,
     fun hc => (hbr _ (mem_eraseWww hc)).2 rfl⟩
  have hp_sep : '#' ∉ pyRstrip '/' pr.path ∧ '?' ∉ pyRstrip '/' pr.path := by
    constructor
    · intro hc
      have h1 : '#' ∈ pr.path := pyRstrip_subset _ _ hc
      rw [hpa] at h1
      exact hash_not_mem_pathOf _ h1
    · intro hc
      have h1 : '?' ∈ pr.path := pyRstrip_subset _ _ hc
      rw [hpa] at h1
      exact qmark_not_mem_pathOf _ h1
  have hp_shape : pyRstrip '/' pr.path = [] ∨
      ∃ p2, pyRstrip '/' pr.path = '/' :: p2 := by
    rcases hhead with hh | hh
    · obtain ⟨t, ht⟩ := pyRstrip_prefix_orig '/' pr.path
      cases hcp : pyRstrip '/' pr.path with
      | nil => exact Or.inl rfl
      | cons a p2 =>
        right
        refine ⟨p2, ?_⟩
        rw [hcp] at ht
        have hha : pr.path.head? = some a := by rw [← ht]; rfl
        have := hha.symm.trans hh
        injection this with hav
        rw [hav]
    · rw [hh]
      exact Or.inl rfl
  have hfix := normalize_fixed pr.scheme (eraseWww pr.netloc) (pyRstrip '/' pr.path)
    hs hls hh_low hp_low hh_delim hh_br hp_sep hp_shape hw (pyRstrip_idem _ _)
  have hassoc : pr.scheme ++ schemeSep ++ eraseWww pr.netloc ++ pyRstrip '/' pr.path
      = pr.scheme ++ ':' :: '/' :: '/' ::
          (eraseWww pr.netloc ++ pyRstrip '/' pr.path) := by
    rw [List.append_assoc, List.append_assoc]
    rfl
  rw [hkval, hassoc]
  exact hfix

/-- Witness for C6 as amended: normalizing `http://www.a.com/x/` yields
`http://a.com/x`, on which a second normalization is the identity. -/
theorem C6_witness :
    normalize_url_for_comparison (strL "http://a.com/x") =
      .ok (strL "http://a.com/x") := by
  have h := C6_amended (strL "http://www.a.com/x/") (strL "http://a.com/x")
    ⟨strL "http", strL "www.a.com", strL "/x/", [], []⟩
    (by decide) (by decide) (by decide) (by decide) (by decide) (by decide)
  exact h

/-- Counterexample to C9: the classifier is not total; on `http://[` the
underlying url parse raises (`ValueError: Invalid IPv6 URL` in Python),
so `detect_redirect` propagates a failure instead of returning a result. -/
theorem C9_counterexample :
    detect_redirect (strL "http://[") (strL "http://[") = .error () := by
  decide

/-- C9 as amended: the classifier is total on every pair of strings that
contain no square brackets (the only inputs on which the modelled url
parse can raise): it never fails and always returns a result. -/
theorem C9_amended (u f : Str)
    (hu : '[' ∉ u ∧ ']' ∉ u) (hf : '[' ∉ f ∧ ']' ∉ f) :
    ∃ r, detect_redirect u f = .ok r := by
  have hparse : ∀ l : Str, '[' ∉ l → ']' ∉ l →
      urlparse l = .ok ⟨schemeOf l, netlocOf l, pathOf l, queryOf l, fragmentOf l⟩ :=
    fun l h1 h2 => urlparse_ok_of_netloc_no_brackets fun c hc =>
      ⟨fun hb => h1 (hb ▸ mem_netlocOf hc), fun hb => h2 (hb ▸ mem_netlocOf hc)⟩
  have hlow : ∀ l : Str, '[' ∉ l → ']' ∉ l →
      ('[' ∉ pyLowerL l ∧ ']' ∉ pyLowerL l) := by
    intro l h1 h2
    constructor
    · intro hc
      obtain ⟨a, ha, hla⟩ := List.mem_map.mp hc
      have := toLower_fixed_target (Or.inl (by decide)) hla
      exact h1 (this ▸ ha)
    · intro hc
      obtain ⟨a, ha, hla⟩ := List.mem_map.mp hc
      have := toLower_fixed_target (Or.inl (by decide)) hla
      exact h2 (this ▸ ha)
  obtain ⟨hu1, hu2⟩ := hlow u hu.1 hu.2
  obtain ⟨hf1, hf2⟩ := hlow f hf.1 hf.2
  have hnu := normalize_of_parse (hparse (pyLowerL u) hu1 hu2)
  have hnf := normalize_of_parse (hparse (pyLowerL f) hf1 hf2)
  unfold detect_redirect
  rw [hnu, hnf]
  dsimp only
  split
  · exact ⟨_, rfl⟩
  · rw [hparse u hu.1 hu.2, hparse f hf.1 hf.2]
    exact ⟨_, rfl⟩

/-- Witness for C9 as amended on a concrete bracket-free pair. -/
theorem C9_witness :
    ∃ r, detect_redirect (strL "http://a.com/x") (strL "http://b.com/y") =
      .ok r :=
  C9_amended (strL "http://a.com/x") (strL "http://b.com/y")
    ⟨by decide, by decide⟩ ⟨by decide, by decide⟩

/-- Counterexample to C10: a sitemap failure is reported as
`{"success": false, "error": msg}` with HTTP 500 - it carries neither the
originating URL nor an error category, unlike the scrape failure shape
`{"success": false, "detail": {"message", "url", "error_type"}}`. -/
theorem C10_counterexample :
    sitemap_endpoint (strL "http://a.com/sitemap.xml")
        (Except.error ⟨strL "boom", strL "ValueError"⟩) =
      { status_code := 500,
        body := [(strL "success", JField.atom (JAtom.b false)),
                 (strL "error", JField.atom (JAtom.s (strL "boom")))] } ∧
    hasKey (strL "url") (sitemap_endpoint (strL "http://a.com/sitemap.xml")
        (Except.error ⟨strL "boom", strL "ValueError"⟩)) = false ∧
    hasKey (strL "error_type") (sitemap_endpoint (strL "http://a.com/sitemap.xml")
        (Except.error ⟨strL "boom", strL "ValueError"⟩)) = false ∧
    hasKey (strL "url") (scrape_error_response (strL "http://a.com/sitemap.xml")
        ⟨strL "boom", strL "ValueError"⟩) = true ∧
    hasKey (strL "error_type") (scrape_error_response (strL "http://a.com/sitemap.xml")
        ⟨strL "boom", strL "ValueError"⟩) = true := by
  decide

/-- C10 as amended: when the sitemap fetch or XML parse raises, the
failure is caught and reported as a structured failure (success flag
false, a message, HTTP 500) rather than an unhandled fault, but not in the
same shape as scrape fetch failures: the body contains no originating-URL
field and no error-category field. -/
theorem C10_amended (url : Str) (e : PyExn) :
    sitemap_endpoint url (Except.error e) =
      { status_code := 500,
        body := [(strL "success", JField.atom (JAtom.b false)),
                 (strL "error", JField.atom (JAtom.s e.message))] } ∧
    hasKey (strL "success") (sitemap_endpoint url (Except.error e)) = true ∧
    hasKey (strL "url") (sitemap_endpoint url (Except.error e)) = false ∧
    hasKey (strL "error_type") (sitemap_endpoint url (Except.error e)) = false :=
  ⟨rfl, rfl, rfl, rfl⟩

end HondaScraper
